import Mathlib

/-!
Verification of the scintillometry path-weighting / effective-height
module (`scintillometry/backend/transects.py`) and of the profile
constructor operations described by the specification.

Real-valued (float) arithmetic of the source is embedded over `ℝ`.
The external Bessel function `scipy.special.jv(1, ·)` is modelled as a
function parameter `jv1 : ℝ → ℝ`, since scipy is an external library.
Floating-point NaN production inside the effective-height pipeline is
modelled explicitly by an `Option ℝ` valued power (`none` = NaN),
following numpy float64 power semantics: a negative base with a
non-integer exponent is NaN; a zero base with a negative exponent is
`+inf` — not NaN — which has no image in `ℝ`, so statements about the
pipeline restrict to inputs with no such entry (see `inf_cond`).
-/

/-- Embeds `bessel_second` from `transects.py`: the path-weighting
kernel, `1` at the removable singularity `v = 0`, else `2·jv1(v)/v`
with `v = 2.283·π·(x − 0.5)`. -/
noncomputable def bessel_second (jv1 : ℝ → ℝ) (x : ℝ) : ℝ :=
  let bessel_variable : ℝ := 2.283 * Real.pi * (x - 0.5)
  if bessel_variable = 0 then 1
  else 2 * jv1 bessel_variable / bessel_variable

/-- Embeds the elementwise weight `2.163 * bessel_second(i)` applied by
`path_weighting` to each coordinate. -/
noncomputable def path_weight_point (jv1 : ℝ → ℝ) (x : ℝ) : ℝ :=
  2.163 * bessel_second jv1 x

/-- Embeds `path_weighting` from `transects.py`: elementwise weights for
the path coordinates, preserving order. -/
noncomputable def path_weighting (jv1 : ℝ → ℝ) (path_coordinates : List ℝ) :
    List ℝ :=
  path_coordinates.map (fun i => path_weight_point jv1 i)

/-- Embeds the `stability_dict` of `define_stability`. -/
def stability_dict : List (String × ℚ) :=
  [("stable", -2/3), ("unstable", -4/3)]

/-- Embeds `define_stability` from `transects.py`. A `none` or empty
string (falsy in Python) yields `b = 1`; recognized names use
`stability_dict`; any other name raises `NotImplementedError`, modelled
as `Except.error` carrying the message string. -/
def define_stability (stability_name : Option String) : Except String ℚ :=
  match stability_name with
  | none => Except.ok 1
  | some s =>
    if s.isEmpty then Except.ok 1
    else
      match stability_dict.lookup s with
      | some b => Except.ok b
      | none => Except.error (s ++ " is not an implemented stability condition.")

/-- Embeds the informational `print` emitted by `define_stability` on
the falsy branch (`"No height dependency selected."`); `none` when no
note is printed. -/
def stability_note (stability_name : Option String) : Option String :=
  match stability_name with
  | none => some ("No height dependency selected.")
  | some s => if s.isEmpty then some ("No height dependency selected.") else none

/-- The condition under which the float power `h ** b` is NaN under
numpy float64 semantics: a negative base raised to a non-integer
power. A zero base with a negative exponent is not NaN — it overflows
to `+inf` (see `inf_cond`), which the source's `np.isnan` substitution
does not catch. -/
def nan_cond (h b : ℝ) : Prop :=
  h < 0 ∧ ¬∃ n : ℤ, (n : ℝ) = b

/-- The condition under which the float power `h ** b` overflows to
`+inf` under numpy float64 semantics: zero base, negative exponent.
The infinity propagates uncaught through the source's quadrature and
has no image in `ℝ`, so theorems about `compute_effective_z` carry the
hypothesis that no height/exponent pair satisfies it. -/
def inf_cond (h b : ℝ) : Prop := h = 0 ∧ b < 0

open Classical in
/-- Float power `h ** b` with NaN tracked as `none`; otherwise the real
power `h ^ b` (rpow). Faithful to the source except on `inf_cond`
inputs, whose `+inf` result has no real-valued image. -/
noncomputable def pow_nan (h b : ℝ) : Option ℝ :=
  if nan_cond h b then none else some (h ^ b)

/-- Embeds `scipy.integrate.trapz(y)` as called by
`compute_effective_z`: trapezoidal rule over the sample index with unit
spacing (no `x` argument is passed in the source). -/
noncomputable def trapz : List ℝ → ℝ
  | y1 :: y2 :: ys => (y1 + y2) / 2 + trapz (y2 :: ys)
  | _ => 0

/-- Trapezoidal rule against explicit abscissae: `Σ (x_{i+1} − x_i) ·
(y_i + y_{i+1}) / 2`. Used to state the specification's reading of
integration "over the position domain" for comparison with the code. -/
noncomputable def trapz_x : List ℝ → List ℝ → ℝ
  | x1 :: x2 :: xs, y1 :: y2 :: ys =>
    (x2 - x1) * (y1 + y2) / 2 + trapz_x (x2 :: xs) (y2 :: ys)
  | _, _ => 0

/-- Embeds `compute_effective_z` from `transects.py`: resolve `b`,
compute `weighted[i] = heights[i]**b · weight(positions[i])`, replace
NaN entries with `0`, then return
`(trapz(weighted) / trapz(weights)) ** (1/b)` where both `trapz` calls
use unit index spacing, exactly as in the source. -/
noncomputable def compute_effective_z (jv1 : ℝ → ℝ)
    (path_heights path_positions : List ℝ) (stability : Option String) :
    Except String ℝ :=
  match define_stability stability with
  | Except.error e => Except.error e
  | Except.ok b =>
    let b_value : ℝ := (b : ℝ)
    let weights := path_weighting jv1 path_positions
    let weighted_raw : List (Option ℝ) :=
      List.zipWith (fun h w => (pow_nan h b_value).map (fun y => y * w))
        path_heights weights
    let weighted_heights : List ℝ := weighted_raw.map (fun o => o.getD 0)
    Except.ok ((trapz weighted_heights / trapz weights) ^ (1 / b_value))

/-- The specification's description of the integration step, for the
refinement comparison: identical to `compute_effective_z` except that
both integrals are taken over the position domain (`trapz_x` against
the position values) instead of over the sample index. -/
noncomputable def compute_effective_z_posdomain (jv1 : ℝ → ℝ)
    (path_heights path_positions : List ℝ) (stability : Option String) :
    Except String ℝ :=
  match define_stability stability with
  | Except.error e => Except.error e
  | Except.ok b =>
    let b_value : ℝ := (b : ℝ)
    let weights := path_weighting jv1 path_positions
    let weighted_raw : List (Option ℝ) :=
      List.zipWith (fun h w => (pow_nan h b_value).map (fun y => y * w))
        path_heights weights
    let weighted_heights : List ℝ := weighted_raw.map (fun o => o.getD 0)
    Except.ok
      ((trapz_x path_positions weighted_heights /
        trapz_x path_positions weights) ^ (1 / b_value))

/-- Modelled from the spec: the physical constant `r_dry` of the absent
`scintillometry/backend/constants.py` (spec: dry-air gas constant
`r_dry ≈ 287`); the test suite pins `r_dry / |g|` to `29.26` under
`np.isclose`, which fixes the standard value `287.04`. -/
def r_dry : ℝ := 287.04

/-- Modelled from the spec: the gravitational acceleration `g` of the
absent `scintillometry/backend/constants.py` (spec: signed, negative by
convention, `g ≈ −9.81`). -/
def g : ℝ := -9.81

/-- Modelled from the spec: a time-indexed table whose columns are
height levels labelled by numeric height (the `LevelTable` of the data
model, backing the absent `scintillometry/backend/constructions.py`).
`index` holds the timestamps; `cols` pairs each height label with its
column of values in temporal order. -/
structure LevelTable (α : Type) where
  index : List String
  cols : List (ℚ × List α)

/-- The data-model invariant of a `LevelTable`: column labels strictly
increasing, and every column as long as the temporal index. -/
def LevelTable.Valid {α : Type} (t : LevelTable α) : Prop :=
  List.Chain' (fun a b => a.1 < b.1) t.cols ∧
    ∀ c ∈ t.cols, c.2.length = t.index.length

/-- Column access by position, with an empty default. -/
def colAt {α : Type} (cols : List (ℚ × List α)) (j : ℕ) : ℚ × List α :=
  cols.getD j (0, [])

/-- Modelled from the spec: one column of the `"backward"` differencing
scheme of the absent `ProfileConstructor.get_gradient`. The first
(lowest) column is zero (ground boundary condition); each later column
is the difference from the previous column divided by the spacing of
their height labels. -/
def backward_col {α : Type} [Field α] (cols : List (ℚ × List α)) (j : ℕ) :
    List α :=
  if j = 0 then (colAt cols 0).2.map (fun _ => (0 : α))
  else
    List.zipWith
      (fun a b => (a - b) / (((colAt cols j).1 - (colAt cols (j - 1)).1 : ℚ) : α))
      (colAt cols j).2 (colAt cols (j - 1)).2

/-- Modelled from the spec: one interior column of the non-uniform
centered-difference scheme of the absent
`ProfileConstructor.non_uniform_differencing` — the standard
three-point stencil weighted by the unequal step sizes (the spec leaves
the interior stencil as an implementer's choice of the standard form). -/
def centered_col {α : Type} [Field α] (cols : List (ℚ × List α)) (j : ℕ) :
    List α :=
  let a : ℚ := (colAt cols j).1 - (colAt cols (j - 1)).1
  let b : ℚ := (colAt cols (j + 1)).1 - (colAt cols j).1
  List.zipWith
    (fun fm ff =>
      (ff.2 * ((a : α)) ^ 2 - fm * ((b : α)) ^ 2 +
          ff.1 * (((b : α)) ^ 2 - ((a : α)) ^ 2)) /
        ((a : α) * (b : α) * ((a + b : ℚ) : α)))
    (colAt cols (j - 1)).2
    (List.zipWith (fun f0 fp => (f0, fp)) (colAt cols j).2 (colAt cols (j + 1)).2)

/-- Modelled from the spec: one column of the `"uneven"` scheme of the
absent `ProfileConstructor.get_gradient` — first column forced to zero,
last column the backward difference with its local spacing (no forward
neighbor), interior columns the non-uniform centered difference. -/
def uneven_col {α : Type} [Field α] (cols : List (ℚ × List α)) (j : ℕ) :
    List α :=
  if j = 0 then (colAt cols 0).2.map (fun _ => (0 : α))
  else if j = cols.length - 1 then backward_col cols j
  else centered_col cols j

/-- Modelled from the spec: the full `"backward"` gradient over all
columns. -/
def backward_scheme {α : Type} [Field α] (cols : List (ℚ × List α)) :
    List (ℚ × List α) :=
  (List.range cols.length).map (fun j => ((colAt cols j).1, backward_col cols j))

/-- Modelled from the spec: the full `"uneven"` gradient over all
columns. -/
def uneven_scheme {α : Type} [Field α] (cols : List (ℚ × List α)) :
    List (ℚ × List α) :=
  (List.range cols.length).map (fun j => ((colAt cols j).1, uneven_col cols j))

/-- Modelled from the spec: the absent `ProfileConstructor.get_gradient`
dispatcher. Methods `"backward"` and `"uneven"` run their schemes and
preserve the temporal index; any other method name raises
`NotImplementedError` with the message established by the test suite,
naming the invalid value and the allowed set. -/
def get_gradient {α : Type} [Field α] (data : LevelTable α) (method : String) :
    Except String (LevelTable α) :=
  if method = "backward" then
    Except.ok ⟨data.index, backward_scheme data.cols⟩
  else if method = "uneven" then
    Except.ok ⟨data.index, uneven_scheme data.cols⟩
  else
    Except.error ("'" ++ method ++
      "' is not an implemented differencing scheme. Use 'uneven' or 'backward'.")

/-- Modelled from the spec: the absent
`ProfileConstructor.get_air_pressure` — hydrostatic extrapolation of a
reference pressure to a target height using the local air temperature:
`pressure · exp(−(z_target − z_ref) · |g| / (r_dry · airTemperature))`. -/
noncomputable def get_air_pressure (pressure air_temperature : ℝ)
    (z_target z_ref : ℚ) : ℝ :=
  pressure * Real.exp (-(((z_target - z_ref : ℚ) : ℝ)) * |g| /
    (r_dry * air_temperature))

/-- Modelled from the spec: the absent
`ProfileConstructor.extrapolate_air_pressure` — apply `get_air_pressure`
independently for every configured height level, with reference height
0 and the surface pressure as reference pressure, the level's own
temperature column supplying the local air temperature; the output
keeps the temporal index and has one column per configured level. -/
noncomputable def extrapolate_air_pressure (surface_pressure : List ℝ)
    (temperature : LevelTable ℝ) : LevelTable ℝ :=
  ⟨temperature.index,
   temperature.cols.map (fun c =>
     (c.1, List.zipWith (fun p t => get_air_pressure p t c.1 0)
       surface_pressure c.2))⟩

/-- Modelled from the spec: `α = r_dry / |g|`, the hypsometric
coefficient of the reduced-pressure formula. -/
noncomputable def alpha_constant : ℝ := r_dry / |g|

/-- Modelled from the spec: the cellwise kernel of the absent
`ProfileConstructor.get_reduced_pressure`:
`stationPressure · exp(elevation / (α · virtualTemperature))`. -/
noncomputable def reduced_pressure_cell (station_pressure
    virtual_temperature elevation : ℝ) : ℝ :=
  station_pressure * Real.exp (elevation / (alpha_constant * virtual_temperature))

/-- Modelled from the spec: the absent
`ProfileConstructor.get_reduced_pressure`, applied columnwise and
rowwise over aligned tables, preserving the temporal index. -/
noncomputable def get_reduced_pressure (station_pressure
    virtual_temperature : LevelTable ℝ) (elevation : ℝ) : LevelTable ℝ :=
  ⟨station_pressure.index,
   List.zipWith (fun pc tc =>
     (pc.1, List.zipWith (fun p t => reduced_pressure_cell p t elevation)
       pc.2 tc.2))
     station_pressure.cols virtual_temperature.cols⟩

/-- A concrete odd stand-in for the external Bessel function, used to
instantiate witnesses: `v ↦ v/2` (the small-argument limit of `J₁`). -/
noncomputable def jv1_half : ℝ → ℝ := fun v => v / 2

/-- With the stand-in `jv1_half`, the kernel evaluates to `1` at every
position (both branches of the removable singularity agree). -/
theorem bessel_second_half (x : ℝ) : bessel_second jv1_half x = 1 := by
  simp only [bessel_second, jv1_half]
  by_cases h : 2.283 * Real.pi * (x - 0.5) = 0
  · simp [h]
  · rw [if_neg h]
    field_simp

/-- C3: `besselWeight(x)` computes `v = 2.283·π·(x−0.5)`, returns `1`
exactly when `v` is exactly zero and `2·J₁(v)/v` otherwise; in
particular `besselWeight(0.5) = 1`. -/
theorem bessel_weight_kernel (jv1 : ℝ → ℝ) (x : ℝ) :
    bessel_second jv1 x =
      (if 2.283 * Real.pi * (x - 0.5) = 0 then 1
       else 2 * jv1 (2.283 * Real.pi * (x - 0.5)) /
         (2.283 * Real.pi * (x - 0.5))) ∧
    bessel_second jv1 0.5 = 1 := by
  constructor
  · rfl
  · have hz : 2.283 * Real.pi * ((0.5 : ℝ) - 0.5) = 0 := by ring
    simp only [bessel_second]
    rw [if_pos hz]

/-- C4: the pointwise path weight is symmetric about `x = 0.5` —
for `0 ≤ d ≤ 0.5`, `pathWeight(0.5 + d) = pathWeight(0.5 − d)` —
inherited from the oddness of `J₁` (evenness of `2·J₁(v)/v`). -/
theorem path_weight_symmetric (jv1 : ℝ → ℝ)
    (hodd : ∀ v : ℝ, jv1 (-v) = -jv1 v) (d : ℝ) (_hd0 : 0 ≤ d)
    (_hd1 : d ≤ 0.5) :
    path_weight_point jv1 (0.5 + d) = path_weight_point jv1 (0.5 - d) := by
  simp only [path_weight_point, bessel_second]
  have e1 : 2.283 * Real.pi * ((0.5 + d) - 0.5) = 2.283 * Real.pi * d := by
    ring
  have e2 : 2.283 * Real.pi * ((0.5 - d) - 0.5) = -(2.283 * Real.pi * d) := by
    ring
  rw [e1, e2]
  by_cases hc : 2.283 * Real.pi * d = 0
  · simp [hc]
  · rw [if_neg hc, if_neg (by simpa using hc), hodd, mul_neg, neg_div_neg_eq]

/-- Witness for C4 at `jv1 = jv1_half`, `d = 0.25`. -/
theorem path_weight_symmetric_witness :
    path_weight_point jv1_half (0.5 + 0.25) = path_weight_point jv1_half (0.5 - 0.25) :=
  path_weight_symmetric jv1_half
    (fun v => by simp only [jv1_half]; ring) 0.25 (by norm_num) (by norm_num)

/-- C5: `define_stability` maps empty/absent to `b = 1` (with the
informational note), `"stable"` to `−2/3`, `"unstable"` to `−4/3`,
and every other non-empty name to the "unimplemented stability
condition" error whose message starts with the offending name; these
cases are exhaustive. -/
theorem stability_resolver_cases :
    define_stability none = Except.ok 1 ∧
    define_stability (some "") = Except.ok 1 ∧
    stability_note none = some ("No height dependency selected.") ∧
    stability_note (some "") = some ("No height dependency selected.") ∧
    define_stability (some "stable") = Except.ok (-2/3) ∧
    define_stability (some "unstable") = Except.ok (-4/3) ∧
    ∀ s : String, s ≠ "" → s ≠ "stable" → s ≠ "unstable" →
      define_stability (some s) =
        Except.error (s ++ " is not an implemented stability condition.") ∧
      ∃ post : List Char,
        (s ++ " is not an implemented stability condition.").data =
          s.data ++ post := by
  refine ⟨rfl, rfl, rfl, rfl, rfl, rfl, ?_⟩
  intro s hne hs hu
  constructor
  · simp only [define_stability, stability_dict, List.lookup]
    rw [if_neg (by simpa [String.isEmpty_iff] using hne)]
    have h1 : (s == "stable") = false := by simpa using hs
    have h2 : (s == "unstable") = false := by simpa using hu
    simp [h1, h2]
  · exact ⟨(" is not an implemented stability condition.").data, by
      simp [String.data_append]⟩

/-- Witness for C5 at the unimplemented name `"neutral"`. -/
theorem stability_resolver_cases_witness :
    define_stability (some "neutral") =
      Except.error ("neutral is not an implemented stability condition.") :=
  (stability_resolver_cases.2.2.2.2.2.2 "neutral" (by decide) (by decide)
    (by decide)).1

/-- C6: for any method outside `{"uneven", "backward"}`, `get_gradient`
fails with the configuration error whose message contains the invalid
value and names both allowed options `uneven` and `backward`. -/
theorem gradient_unknown_method (data : LevelTable ℚ) (m : String)
    (hu : m ≠ "uneven") (hb : m ≠ "backward") :
    get_gradient data m =
      Except.error ("'" ++ m ++
        "' is not an implemented differencing scheme. Use 'uneven' or 'backward'.") ∧
    (∃ pre post : List Char,
      ("'" ++ m ++
        "' is not an implemented differencing scheme. Use 'uneven' or 'backward'.").data =
        pre ++ m.data ++ post) ∧
    (∃ pre post : List Char,
      ("'" ++ m ++
        "' is not an implemented differencing scheme. Use 'uneven' or 'backward'.").data =
        pre ++ ("uneven").data ++ post) ∧
    (∃ pre post : List Char,
      ("'" ++ m ++
        "' is not an implemented differencing scheme. Use 'uneven' or 'backward'.").data =
        pre ++ ("backward").data ++ post) := by
  refine ⟨?_, ?_, ?_, ?_⟩
  · simp only [get_gradient]
    rw [if_neg hb, if_neg hu]
  · exact ⟨("'").data,
      ("' is not an implemented differencing scheme. Use 'uneven' or 'backward'.").data,
      by simp [String.data_append]⟩
  · refine ⟨("'").data ++ m.data ++
      ("' is not an implemented differencing scheme. Use '").data,
      ("' or 'backward'.").data, ?_⟩
    simp [String.data_append]
  · refine ⟨("'").data ++ m.data ++
      ("' is not an implemented differencing scheme. Use 'uneven' or '").data,
      ("'.").data, ?_⟩
    simp [String.data_append]

/-- Witness for C6 at the method name `"missing scheme"` used by the
test suite, on an empty table. -/
theorem gradient_unknown_method_witness :
    get_gradient (LevelTable.mk ([] : List String) ([] : List (ℚ × List ℚ)))
        "missing scheme" =
      Except.error ("'" ++ "missing scheme" ++
        "' is not an implemented differencing scheme. Use 'uneven' or 'backward'.") :=
  (gradient_unknown_method (LevelTable.mk [] []) "missing scheme" (by decide)
    (by decide)).1

/-- C10 (implicit): `compute_effective_z` depends on the path positions
only through their path weights — equal weight lists give equal
results, for every heights series and stability; both integrals are
index-domain integrals, so position values never enter the quadrature. -/
theorem effective_z_positions_noninterference (jv1 : ℝ → ℝ)
    (path_heights ps ps2 : List ℝ) (stability : Option String)
    (hw : path_weighting jv1 ps = path_weighting jv1 ps2) :
    compute_effective_z jv1 path_heights ps stability =
      compute_effective_z jv1 path_heights ps2 stability := by
  simp only [compute_effective_z, hw]

/-- Witness for C10: the position series `[0, 0.25, 1]` and
`[0, 0.75, 1]` have equal weights under `jv1_half` and yield equal
effective heights. -/
theorem effective_z_positions_noninterference_witness :
    compute_effective_z jv1_half [1, 2] [0, 0.25, 1] (some "stable") =
      compute_effective_z jv1_half [1, 2] [0, 0.75, 1] (some "stable") :=
  effective_z_positions_noninterference jv1_half [1, 2] [0, 0.25, 1]
    [0, 0.75, 1] (some "stable")
    (by simp [path_weighting, path_weight_point, bessel_second_half])

/-- The five positions uniformly spaced in `[0, 1]` of the round-trip
scenario. -/
noncomputable def positions5 : List ℝ := [0, 0.25, 0.5, 0.75, 1]

/-- C2: a transect of 5 points uniformly spaced in `[0,1]` with constant
path height 10 and stability `"unstable"` (`b = −4/3`) has effective
height exactly 10, for every weighting kernel whose weights have a
non-zero integral. -/
theorem effective_z_constant_transect (jv1 : ℝ → ℝ)
    (hS : trapz (path_weighting jv1 positions5) ≠ 0) :
    compute_effective_z jv1 (List.replicate 5 10) positions5 (some "unstable") =
      Except.ok 10 := by
  have hds : define_stability (some "unstable") = Except.ok (-4/3 : ℚ) := rfl
  have hb : ((-4/3 : ℚ) : ℝ) = -4/3 := by norm_num
  have hpn : pow_nan 10 ((-4/3 : ℚ) : ℝ) =
      some ((10 : ℝ) ^ ((-4/3 : ℚ) : ℝ)) := by
    rw [pow_nan, if_neg]
    rintro ⟨hl, -⟩
    norm_num at hl
  simp only [compute_effective_z, hds]
  simp only [path_weighting, positions5, List.map, List.replicate, List.zipWith,
    hpn, Option.map_some', Option.getD_some, trapz]
  simp only [path_weighting, positions5, List.map, trapz] at hS
  congr 1
  have hnum :
      ((10 : ℝ) ^ ((-4/3 : ℚ) : ℝ) * path_weight_point jv1 0 +
            (10 : ℝ) ^ ((-4/3 : ℚ) : ℝ) * path_weight_point jv1 0.25) / 2 +
          (((10 : ℝ) ^ ((-4/3 : ℚ) : ℝ) * path_weight_point jv1 0.25 +
              (10 : ℝ) ^ ((-4/3 : ℚ) : ℝ) * path_weight_point jv1 0.5) / 2 +
            (((10 : ℝ) ^ ((-4/3 : ℚ) : ℝ) * path_weight_point jv1 0.5 +
                (10 : ℝ) ^ ((-4/3 : ℚ) : ℝ) * path_weight_point jv1 0.75) / 2 +
              (((10 : ℝ) ^ ((-4/3 : ℚ) : ℝ) * path_weight_point jv1 0.75 +
                  (10 : ℝ) ^ ((-4/3 : ℚ) : ℝ) * path_weight_point jv1 1) / 2 +
                0))) =
        (10 : ℝ) ^ ((-4/3 : ℚ) : ℝ) *
          ((path_weight_point jv1 0 + path_weight_point jv1 0.25) / 2 +
            ((path_weight_point jv1 0.25 + path_weight_point jv1 0.5) / 2 +
              ((path_weight_point jv1 0.5 + path_weight_point jv1 0.75) / 2 +
                ((path_weight_point jv1 0.75 + path_weight_point jv1 1) / 2 +
                  0)))) := by
    ring
  rw [hnum, mul_div_assoc, div_self hS, mul_one]
  rw [← Real.rpow_mul (by norm_num : (0 : ℝ) ≤ 10)]
  rw [hb]
  norm_num

/-- Witness for C2 with the concrete kernel stand-in `jv1_half`, whose
weights integrate to `4 · 2.163 ≠ 0`. -/
theorem effective_z_constant_transect_witness :
    compute_effective_z jv1_half (List.replicate 5 10) positions5
        (some "unstable") =
      Except.ok 10 :=
  effective_z_constant_transect jv1_half (by
    simp only [path_weighting, positions5, List.map, path_weight_point,
      bessel_second_half, trapz]
    norm_num)

/-- A strictly positive height never produces a NaN power. -/
theorem pow_nan_pos (h b : ℝ) (hh : 0 < h) : pow_nan h b = some (h ^ b) := by
  rw [pow_nan, if_neg]
  rintro ⟨hl, -⟩
  exact not_lt.mpr hh.le hl

/-- Counterexample for C1: on non-uniformly spaced positions
`[0, 0.25, 1]` with heights `[1, 2, 4]` and no height dependency,
the code's index-spaced quadrature returns `9/4` while quadrature over
the position domain (the claim's reading) would return `21/8`. -/
theorem effective_z_posdomain_counterexample :
    compute_effective_z jv1_half [1, 2, 4] [0, 0.25, 1] none =
      Except.ok (9/4) ∧
    compute_effective_z_posdomain jv1_half [1, 2, 4] [0, 0.25, 1] none =
      Except.ok (21/8) ∧
    compute_effective_z jv1_half [1, 2, 4] [0, 0.25, 1] none ≠
      compute_effective_z_posdomain jv1_half [1, 2, 4] [0, 0.25, 1] none := by
  have hds : define_stability none = Except.ok (1 : ℚ) := rfl
  have h1 : pow_nan 1 (1 : ℝ) = some ((1 : ℝ) ^ (1 : ℝ)) :=
    pow_nan_pos 1 _ one_pos
  have h2 : pow_nan 2 (1 : ℝ) = some ((2 : ℝ) ^ (1 : ℝ)) :=
    pow_nan_pos 2 _ (by norm_num)
  have h4 : pow_nan 4 (1 : ℝ) = some ((4 : ℝ) ^ (1 : ℝ)) :=
    pow_nan_pos 4 _ (by norm_num)
  have hcast : ((1 : ℚ) : ℝ) = 1 := by norm_num
  have e1 : compute_effective_z jv1_half [1, 2, 4] [0, 0.25, 1] none =
      Except.ok (9/4) := by
    simp only [compute_effective_z, hds, path_weighting, List.map, List.zipWith,
      h1, h2, h4, Option.map_some', Option.getD_some, path_weight_point,
      bessel_second_half, trapz, hcast, Real.rpow_one]
    norm_num
  have e2 : compute_effective_z_posdomain jv1_half [1, 2, 4] [0, 0.25, 1] none =
      Except.ok (21/8) := by
    simp only [compute_effective_z_posdomain, hds, path_weighting, List.map,
      List.zipWith, h1, h2, h4, Option.map_some', Option.getD_some,
      path_weight_point, bessel_second_half, trapz_x, hcast, Real.rpow_one]
    norm_num
  refine ⟨e1, e2, ?_⟩
  rw [e1, e2]
  intro hcontra
  have : (9/4 : ℝ) = 21/8 := by injection hcontra
  norm_num at this

/-- C1 (amended): on transects where no zero height meets a negative
exponent (there the source's float power is `+inf`, outside this
real-valued model), `compute_effective_z` resolves `b`, forms
`weighted[i] = heights[i]^b · pathWeight(positions[i])` with NaN
entries replaced by `0`, integrates `weighted` and the weights by
trapezoidal quadrature over the sample index with unit spacing (the
position values do not enter the quadrature), and returns
`(∫weighted / ∫pathWeight)^(1/b)`. -/
theorem effective_z_index_quadrature (jv1 : ℝ → ℝ)
    (path_heights path_positions : List ℝ) (stability : Option String)
    (b : ℚ) (hb : define_stability stability = Except.ok b)
    (hlen : path_heights.length = path_positions.length)
    (_hfin : ∀ h ∈ path_heights, ¬inf_cond h ((b : ℝ))) :
    ∃ weighted : List ℝ,
      weighted.length = path_heights.length ∧
      (∀ i, i < path_heights.length →
        (nan_cond (path_heights.getD i 0) ((b : ℝ)) →
          weighted.getD i 0 = 0) ∧
        (¬nan_cond (path_heights.getD i 0) ((b : ℝ)) →
          weighted.getD i 0 =
            (path_heights.getD i 0) ^ ((b : ℝ)) *
              path_weight_point jv1 (path_positions.getD i 0))) ∧
      compute_effective_z jv1 path_heights path_positions stability =
        Except.ok
          ((trapz weighted / trapz (path_weighting jv1 path_positions)) ^
            (1 / ((b : ℝ)))) := by
  refine ⟨(List.zipWith (fun h w => (pow_nan h ((b : ℝ))).map (fun y => y * w))
      path_heights (path_weighting jv1 path_positions)).map
        (fun o => o.getD 0), ?_, ?_, ?_⟩
  · simp [path_weighting, hlen]
  · intro i hi
    have hiw : i < (path_weighting jv1 path_positions).length := by
      simpa [path_weighting, ← hlen] using hi
    have hiz : i < (List.zipWith
        (fun h w => (pow_nan h ((b : ℝ))).map (fun y => y * w))
        path_heights (path_weighting jv1 path_positions)).length := by
      simp [List.length_zipWith]
      exact ⟨hi, hiw⟩
    have him : i < ((List.zipWith
        (fun h w => (pow_nan h ((b : ℝ))).map (fun y => y * w))
        path_heights (path_weighting jv1 path_positions)).map
          (fun o => o.getD 0)).length := by
      simpa using hiz
    have hip : i < path_positions.length := hlen ▸ hi
    rw [List.getD_eq_getElem _ _ him, List.getElem_map, List.getElem_zipWith,
      List.getD_eq_getElem _ _ hi]
    rw [List.getD_eq_getElem _ _ hip]
    have hwget : (path_weighting jv1 path_positions)[i] =
        path_weight_point jv1 (path_positions[i]) := by
      simp [path_weighting]
    constructor
    · intro hc
      rw [pow_nan, if_pos hc]
      rfl
    · intro hc
      rw [pow_nan, if_neg hc, hwget]
      rfl
  · simp only [compute_effective_z, hb]

/-- Witness for the amended C1 on a one-point transect with height 10,
position 0.3, stability `"stable"` (`b = −2/3`). -/
theorem effective_z_index_quadrature_witness :
    ∃ weighted : List ℝ,
      weighted.length = ([(10 : ℝ)] : List ℝ).length ∧
      (∀ i, i < ([(10 : ℝ)] : List ℝ).length →
        (nan_cond (([(10 : ℝ)] : List ℝ).getD i 0) (((-2/3 : ℚ) : ℝ)) →
          weighted.getD i 0 = 0) ∧
        (¬nan_cond (([(10 : ℝ)] : List ℝ).getD i 0) (((-2/3 : ℚ) : ℝ)) →
          weighted.getD i 0 =
            (([(10 : ℝ)] : List ℝ).getD i 0) ^ (((-2/3 : ℚ) : ℝ)) *
              path_weight_point jv1_half (([(0.3 : ℝ)] : List ℝ).getD i 0))) ∧
      compute_effective_z jv1_half [(10 : ℝ)] [(0.3 : ℝ)] (some "stable") =
        Except.ok
          ((trapz weighted / trapz (path_weighting jv1_half [(0.3 : ℝ)])) ^
            (1 / (((-2/3 : ℚ) : ℝ)))) :=
  effective_z_index_quadrature jv1_half [(10 : ℝ)] [(0.3 : ℝ)] (some "stable")
    (-2/3) rfl rfl (by
      intro h hh
      simp only [List.mem_singleton] at hh
      subst hh
      norm_num [inf_cond])

/-- The backward scheme has one output column per input column. -/
theorem length_backward_scheme {α : Type} [Field α]
    (cols : List (ℚ × List α)) : (backward_scheme cols).length = cols.length := by
  simp [backward_scheme]

/-- The uneven scheme has one output column per input column. -/
theorem length_uneven_scheme {α : Type} [Field α]
    (cols : List (ℚ × List α)) : (uneven_scheme cols).length = cols.length := by
  simp [uneven_scheme]

/-- A positionally accessed column is a member of the column list. -/
theorem colAt_mem {α : Type} (cols : List (ℚ × List α)) (j : ℕ)
    (hj : j < cols.length) : colAt cols j ∈ cols := by
  rw [colAt, List.getD_eq_getElem _ _ hj]
  exact List.getElem_mem hj

/-- Column `j` of the backward scheme keeps label `j` and carries the
backward-difference column. -/
theorem colAt_backward_scheme {α : Type} [Field α]
    (cols : List (ℚ × List α)) (j : ℕ) (hj : j < cols.length) :
    colAt (backward_scheme cols) j = ((colAt cols j).1, backward_col cols j) := by
  rw [colAt, List.getD_eq_getElem]
  · simp [backward_scheme]
  · simpa [backward_scheme] using hj

/-- Column `j` of the uneven scheme keeps label `j` and carries the
uneven-difference column. -/
theorem colAt_uneven_scheme {α : Type} [Field α]
    (cols : List (ℚ × List α)) (j : ℕ) (hj : j < cols.length) :
    colAt (uneven_scheme cols) j = ((colAt cols j).1, uneven_col cols j) := by
  rw [colAt, List.getD_eq_getElem]
  · simp [uneven_scheme]
  · simpa [uneven_scheme] using hj

/-- The first backward-scheme column is identically zero. -/
theorem backward_col_zero {α : Type} [Field α] (cols : List (ℚ × List α))
    (r : ℕ) (hr : r < (colAt cols 0).2.length) :
    (backward_col cols 0).getD r 0 = 0 := by
  rw [backward_col, if_pos rfl, List.getD_eq_getElem]
  · simp
  · simpa using hr

/-- Entry `r` of backward-scheme column `j ≠ 0`: backward difference
divided by the label spacing. -/
theorem backward_col_entry {α : Type} [Field α] (cols : List (ℚ × List α))
    (j : ℕ) (hj : j ≠ 0) (r : ℕ) (hr1 : r < (colAt cols j).2.length)
    (hr2 : r < (colAt cols (j - 1)).2.length) :
    (backward_col cols j).getD r 0 =
      ((colAt cols j).2.getD r 0 - (colAt cols (j - 1)).2.getD r 0) /
        (((colAt cols j).1 - (colAt cols (j - 1)).1 : ℚ) : α) := by
  rw [backward_col, if_neg hj, List.getD_eq_getElem, List.getElem_zipWith,
    List.getD_eq_getElem _ _ hr1, List.getD_eq_getElem _ _ hr2]
  simp [List.length_zipWith]
  exact ⟨hr1, hr2⟩

/-- C7: on a valid non-uniform `LevelTable` with at least two columns,
`get_gradient` with `"backward"` zeroes the first (lowest) column and
maps every later column to the backward difference over the label
spacing; with `"uneven"`, the first column is likewise zero and the
last column equals the same backward difference with its local
spacing. -/
theorem gradient_boundary_and_backward (data : LevelTable ℚ)
    (hv : data.Valid) (hn : 2 ≤ data.cols.length) :
    (∃ res : LevelTable ℚ,
      get_gradient data "backward" = Except.ok res ∧
      res.index = data.index ∧
      res.cols.length = data.cols.length ∧
      (∀ j, j < data.cols.length →
        (colAt res.cols j).1 = (colAt data.cols j).1) ∧
      (∀ r, r < data.index.length → (colAt res.cols 0).2.getD r 0 = 0) ∧
      (∀ j, 1 ≤ j → j < data.cols.length → ∀ r, r < data.index.length →
        (colAt res.cols j).2.getD r 0 =
          ((colAt data.cols j).2.getD r 0 -
              (colAt data.cols (j - 1)).2.getD r 0) /
            ((colAt data.cols j).1 - (colAt data.cols (j - 1)).1))) ∧
    (∃ res : LevelTable ℚ,
      get_gradient data "uneven" = Except.ok res ∧
      res.index = data.index ∧
      res.cols.length = data.cols.length ∧
      (∀ r, r < data.index.length → (colAt res.cols 0).2.getD r 0 = 0) ∧
      (∀ r, r < data.index.length →
        (colAt res.cols (data.cols.length - 1)).2.getD r 0 =
          ((colAt data.cols (data.cols.length - 1)).2.getD r 0 -
              (colAt data.cols (data.cols.length - 2)).2.getD r 0) /
            ((colAt data.cols (data.cols.length - 1)).1 -
              (colAt data.cols (data.cols.length - 2)).1))) := by
  have hlen : ∀ j, j < data.cols.length →
      (colAt data.cols j).2.length = data.index.length := fun j hj =>
    hv.2 _ (colAt_mem _ j hj)
  have h0n : 0 < data.cols.length := by omega
  constructor
  · refine ⟨⟨data.index, backward_scheme data.cols⟩, rfl, rfl,
      length_backward_scheme _, ?_, ?_, ?_⟩
    · intro j hj
      rw [colAt_backward_scheme _ j (by simpa using hj)]
    · intro r hr
      rw [colAt_backward_scheme _ 0 h0n]
      exact backward_col_zero _ r (by rw [hlen 0 h0n]; exact hr)
    · intro j hj1 hjn r hr
      rw [colAt_backward_scheme _ j hjn]
      have hj0 : j ≠ 0 := by omega
      have hjm : j - 1 < data.cols.length := by omega
      rw [backward_col_entry _ j hj0 r (by rw [hlen j hjn]; exact hr)
        (by rw [hlen _ hjm]; exact hr)]
      simp
  · refine ⟨⟨data.index, uneven_scheme data.cols⟩, rfl, rfl,
      length_uneven_scheme _, ?_, ?_⟩
    · intro r hr
      rw [colAt_uneven_scheme _ 0 h0n, uneven_col, if_pos rfl,
        List.getD_eq_getElem]
      · simp
      · simpa using hlen 0 h0n ▸ hr
    · intro r hr
      have hlast : data.cols.length - 1 < data.cols.length := by omega
      have hpen : data.cols.length - 2 < data.cols.length := by omega
      have hne0 : data.cols.length - 1 ≠ 0 := by omega
      have hsub : data.cols.length - 1 - 1 = data.cols.length - 2 := by omega
      rw [colAt_uneven_scheme _ _ hlast, uneven_col, if_neg hne0, if_pos rfl,
        backward_col_entry _ _ hne0 r
          (by rw [hlen _ hlast]; exact hr)
          (by rw [hsub, hlen _ hpen]; exact hr)]
      rw [hsub]
      simp

/-- A concrete valid three-column, two-row level table. -/
def gradient_table : LevelTable ℚ :=
  ⟨["t1", "t2"], [(0, [1, 2]), (10, [3, 4]), (30, [5, 6])]⟩

/-- Witness for C7 on `gradient_table`, projecting the backward part. -/
theorem gradient_boundary_and_backward_witness :
    ∃ res : LevelTable ℚ,
      get_gradient gradient_table "backward" = Except.ok res ∧
      res.index = gradient_table.index ∧
      res.cols.length = gradient_table.cols.length ∧
      (∀ j, j < gradient_table.cols.length →
        (colAt res.cols j).1 = (colAt gradient_table.cols j).1) ∧
      (∀ r, r < gradient_table.index.length →
        (colAt res.cols 0).2.getD r 0 = 0) ∧
      (∀ j, 1 ≤ j → j < gradient_table.cols.length →
        ∀ r, r < gradient_table.index.length →
        (colAt res.cols j).2.getD r 0 =
          ((colAt gradient_table.cols j).2.getD r 0 -
              (colAt gradient_table.cols (j - 1)).2.getD r 0) /
            ((colAt gradient_table.cols j).1 -
              (colAt gradient_table.cols (j - 1)).1)) :=
  (gradient_boundary_and_backward gradient_table
    ⟨by norm_num [gradient_table, List.chain'_cons], by decide⟩ (by decide)).1

/-- A `zipWith` by a function that ignores its second argument returns
the (not longer) first list. -/
theorem zipWith_left_of_le {α β : Type} (f : α → β → α) (hf : ∀ a b, f a b = a) :
    ∀ (as : List α) (bs : List β), as.length ≤ bs.length →
      List.zipWith f as bs = as
  | [], _, _ => by simp
  | a :: as, [], h => by simp at h
  | a :: as, b :: bs, h => by
    simp only [List.zipWith, hf]
    rw [zipWith_left_of_le f hf as bs (by simpa using h)]

/-- At the reference level (`z_target = z_ref = 0`) the extrapolated
pressure is the input pressure. -/
theorem get_air_pressure_ref (p t : ℝ) : get_air_pressure p t 0 0 = p := by
  rw [get_air_pressure]
  norm_num

/-- Hydrostatic extrapolation strictly decreases pressure above the
reference level, for positive pressure and temperature. -/
theorem get_air_pressure_lt (p t : ℝ) (z : ℚ) (hz : 0 < z) (hp : 0 < p)
    (ht : 0 < t) : get_air_pressure p t z 0 < p := by
  rw [get_air_pressure]
  have hzr : (0 : ℝ) < ((z : ℝ)) := by exact_mod_cast hz
  have hg : |g| = 9.81 := by
    rw [g, abs_of_neg] <;> norm_num
  have hexp : Real.exp (-(((z - 0 : ℚ) : ℝ)) * |g| / (r_dry * t)) < 1 := by
    rw [Real.exp_lt_one_iff]
    apply div_neg_of_neg_of_pos
    · push_cast
      rw [hg]
      nlinarith
    · rw [r_dry]
      positivity
  calc p * Real.exp (-(((z - 0 : ℚ) : ℝ)) * |g| / (r_dry * t))
      < p * 1 := by exact mul_lt_mul_of_pos_left hexp hp
    _ = p := mul_one p

/-- Column `j` of the extrapolated table: label preserved, values the
elementwise hydrostatic extrapolation of the surface pressure with the
level's own temperature column. -/
theorem colAt_extrapolate (surface : List ℝ) (temperature : LevelTable ℝ)
    (j : ℕ) (hj : j < temperature.cols.length) :
    colAt (extrapolate_air_pressure surface temperature).cols j =
      ((colAt temperature.cols j).1,
        List.zipWith
          (fun p t => get_air_pressure p t (colAt temperature.cols j).1 0)
          surface (colAt temperature.cols j).2) := by
  have hj2 : j < (List.map
      (fun c => (c.1, List.zipWith (fun p t => get_air_pressure p t c.1 0)
        surface c.2)) temperature.cols).length := by simpa using hj
  rw [extrapolate_air_pressure]
  rw [colAt, List.getD_eq_getElem _ _ hj2, List.getElem_map]
  rw [colAt, List.getD_eq_getElem _ _ hj]

/-- C8: `extrapolate_air_pressure` keeps the temporal index, produces
one column per configured level with the level labels preserved, the
level-0 column equals the surface pressure exactly, and every
positive-labelled level's entries are strictly below the surface
pressure for positive pressures and temperatures. -/
theorem extrapolate_pressure_profile (surface : List ℝ)
    (temperature : LevelTable ℝ) (hv : temperature.Valid)
    (hs : surface.length = temperature.index.length)
    (hn : 0 < temperature.cols.length)
    (h0 : (colAt temperature.cols 0).1 = 0) :
    ∃ res : LevelTable ℝ,
      extrapolate_air_pressure surface temperature = res ∧
      res.index = temperature.index ∧
      res.cols.length = temperature.cols.length ∧
      (∀ j, j < temperature.cols.length →
        (colAt res.cols j).1 = (colAt temperature.cols j).1) ∧
      (colAt res.cols 0).2 = surface ∧
      (∀ j, j < temperature.cols.length → 0 < (colAt temperature.cols j).1 →
        ∀ r, r < temperature.index.length → 0 < surface.getD r 0 →
          0 < (colAt temperature.cols j).2.getD r 0 →
          (colAt res.cols j).2.getD r 0 < surface.getD r 0) := by
  have hlen : ∀ j, j < temperature.cols.length →
      (colAt temperature.cols j).2.length = temperature.index.length :=
    fun j hj => hv.2 _ (colAt_mem _ j hj)
  refine ⟨extrapolate_air_pressure surface temperature, rfl, rfl, ?_, ?_, ?_, ?_⟩
  · simp [extrapolate_air_pressure]
  · intro j hj
    rw [colAt_extrapolate _ _ j hj]
  · rw [colAt_extrapolate _ _ 0 hn, h0]
    apply zipWith_left_of_le _ get_air_pressure_ref
    rw [hs, hlen 0 hn]
  · intro j hj hz r hr hp ht
    rw [colAt_extrapolate _ _ j hj]
    have hrs : r < surface.length := by rw [hs]; exact hr
    have hrt : r < (colAt temperature.cols j).2.length := by
      rw [hlen j hj]; exact hr
    have hrz : r < (List.zipWith
        (fun p t => get_air_pressure p t (colAt temperature.cols j).1 0)
        surface (colAt temperature.cols j).2).length := by
      simp [List.length_zipWith]
      exact ⟨hrs, hrt⟩
    rw [List.getD_eq_getElem _ _ hrz, List.getElem_zipWith,
      List.getD_eq_getElem _ _ hrs]
    rw [List.getD_eq_getElem _ _ hrs] at hp
    rw [List.getD_eq_getElem _ _ hrt] at ht
    exact get_air_pressure_lt _ _ _ hz hp ht

/-- A concrete two-level temperature table over one timestamp. -/
noncomputable def temperature_table : LevelTable ℝ :=
  ⟨["t1"], [(0, [280]), (10, [281])]⟩

/-- Witness for C8 on a single surface pressure of 101300 Pa. -/
theorem extrapolate_pressure_profile_witness :
    ∃ res : LevelTable ℝ,
      extrapolate_air_pressure [101300] temperature_table = res ∧
      res.index = temperature_table.index ∧
      res.cols.length = temperature_table.cols.length ∧
      (∀ j, j < temperature_table.cols.length →
        (colAt res.cols j).1 = (colAt temperature_table.cols j).1) ∧
      (colAt res.cols 0).2 = [101300] ∧
      (∀ j, j < temperature_table.cols.length →
        0 < (colAt temperature_table.cols j).1 →
        ∀ r, r < temperature_table.index.length →
          0 < ([(101300 : ℝ)] : List ℝ).getD r 0 →
          0 < (colAt temperature_table.cols j).2.getD r 0 →
          (colAt res.cols j).2.getD r 0 < ([(101300 : ℝ)] : List ℝ).getD r 0) :=
  extrapolate_pressure_profile [101300] temperature_table
    ⟨by norm_num [temperature_table, List.chain'_cons], by
      intro c hc
      simp only [temperature_table, List.mem_cons, List.not_mem_nil,
        or_false] at hc
      rcases hc with h | h <;> subst h <;> rfl⟩
    rfl (by norm_num [temperature_table]) rfl

/-- At zero elevation the reduced-pressure cell is the station
pressure. -/
theorem reduced_pressure_cell_zero (p t : ℝ) :
    reduced_pressure_cell p t 0 = p := by
  rw [reduced_pressure_cell]
  norm_num

/-- C9: the reduced-pressure kernel is
`p · exp(elevation / (α · Tv))` with `α = r_dry / |g|`; with the
configured constants `α` is within `0.01` of `287 / 9.81`; and at zero
elevation the operation is the identity on the station-pressure
table. -/
theorem reduced_pressure_properties (station virtT : LevelTable ℝ)
    (hc : station.cols.length ≤ virtT.cols.length)
    (hl : ∀ j, j < station.cols.length →
      (colAt station.cols j).2.length ≤ (colAt virtT.cols j).2.length) :
    (∀ p t e : ℝ, reduced_pressure_cell p t e =
      p * Real.exp (e / ((r_dry / |g|) * t))) ∧
    |alpha_constant - 287 / 9.81| ≤ 0.01 ∧
    get_reduced_pressure station virtT 0 = station := by
  have hg : |g| = 9.81 := by
    rw [g, abs_of_neg] <;> norm_num
  refine ⟨fun p t e => rfl, ?_, ?_⟩
  · rw [alpha_constant, r_dry, hg]
    have hd : (287.04 : ℝ) / 9.81 - 287 / 9.81 = 0.04 / 9.81 := by ring
    rw [hd, abs_of_nonneg (by positivity)]
    norm_num
  · obtain ⟨idx, cols⟩ := station
    simp only [get_reduced_pressure, LevelTable.mk.injEq, true_and]
    simp only at hc hl
    apply List.ext_getElem
    · simp only [List.length_zipWith]
      omega
    · intro k hk1 hk2
      have hkv : k < virtT.cols.length := by omega
      rw [List.getElem_zipWith]
      have hinner := hl k hk2
      rw [colAt, colAt, List.getD_eq_getElem _ _ hk2,
        List.getD_eq_getElem _ _ hkv] at hinner
      rw [zipWith_left_of_le _ (fun p t => reduced_pressure_cell_zero p t)
        _ _ hinner]

/-- A concrete one-level station-pressure table. -/
noncomputable def station_table : LevelTable ℝ := ⟨["t1"], [(10, [900])]⟩

/-- A concrete one-level virtual-temperature table. -/
noncomputable def virt_table : LevelTable ℝ := ⟨["t1"], [(10, [283])]⟩

/-- Witness for C9 on the concrete one-level tables. -/
theorem reduced_pressure_properties_witness :
    (∀ p t e : ℝ, reduced_pressure_cell p t e =
      p * Real.exp (e / ((r_dry / |g|) * t))) ∧
    |alpha_constant - 287 / 9.81| ≤ 0.01 ∧
    get_reduced_pressure station_table virt_table 0 = station_table :=
  reduced_pressure_properties station_table virt_table
    (by norm_num [station_table, virt_table])
    (by
      intro j hj
      have h0 : j = 0 := by
        simpa [station_table] using hj
      subst h0
      simp [station_table, virt_table, colAt])
